import Mathlib

/-!
Verification development for the CodexJS repository: a shallow embedding of
its decorator-based routing / DI layer over Express, together with theorems
settling the specification claims.

The embedding follows the TypeScript source:
* `src/index.ts` — the `Codex` class (`createHandler`, `registerModules`,
  `registerControllers`, `baseRoute`, `createHttpMethod`, `enableJson`,
  `enableUrlEncoded`);
* `src/assertion/assert.ts` — `assertController`, `assertModule`;
* `src/decorators/RouteDecorator.ts` — `createRouteDecorator`;
* `src/decorators/DiDecorators.ts` — `Controller`, `Module`;
* `src/core/Proxy.ts` — `CodexProxy.proxyHandler`.

JavaScript values are modelled as follows: `undefined` becomes `Option.none`,
thrown errors become `Except.error`, reflect-metadata entries become `Option`
fields on a `Cls` record, the typedi container becomes a list of class keys
plus a log of `Container.get` calls, and the Express app becomes a list of
router mounts.
-/

namespace CodexJS

/-- HTTP verbs, from `src/types/HttpMethod.ts` (the five used by the code). -/
inductive HttpMethod where
  | get | post | put | patch | delete
deriving DecidableEq, Repr

/-- Opaque middleware tokens standing for `RequestHandler` values.  The two
body-parsing middlewares installed by `enableJson` / `enableUrlEncoded` are
distinguished constructors (`urlencodedBody` carries the `extended` option);
every other middleware is a `named` token. -/
inductive Middleware where
  | jsonBody : Middleware
  | urlencodedBody : Bool → Middleware
  | named : String → Middleware
deriving DecidableEq, Repr

/-- `RouteMetadata` from `src/types/RouteMetadata.ts`: one route descriptor
recorded by an HTTP-verb decorator.  `handler` is the decorated property key. -/
structure RouteMetadata where
  method : HttpMethod
  path : String
  handler : String
  middlewares : List Middleware
deriving DecidableEq, Repr

/-- A JavaScript class together with its reflect-metadata entries.  `name` is
the class's `name` property (the empty string for an anonymous class, the
falsy case of `(target as any).name`).  Each `codex:*` metadata key is an
`Option` field, `none` meaning the key was never defined.  The `codex:module`
metadata is the object passed to `@Module`, whose `controllers` and
`providers` fields are each optional (hence `Option List`). -/
inductive Cls where
  | mk : (name : String) → (controllerMeta : Option String) →
      (middlewaresMeta : Option (List Middleware)) →
      (moduleMeta : Option (Option (List Cls) × Option (List Cls))) →
      (routesMeta : Option (List RouteMetadata)) → Cls

/-- The class's `name` property. -/
def Cls.name : Cls → String
  | .mk n _ _ _ _ => n

/-- The `codex:controller` metadata (the base path), if defined. -/
def Cls.controllerMeta : Cls → Option String
  | .mk _ c _ _ _ => c

/-- The `codex:middlewares` metadata, if defined. -/
def Cls.middlewaresMeta : Cls → Option (List Middleware)
  | .mk _ _ m _ _ => m

/-- The `codex:module` metadata (`(controllers?, providers?)`), if defined. -/
def Cls.moduleMeta : Cls → Option (Option (List Cls) × Option (List Cls))
  | .mk _ _ _ m _ => m

/-- The `codex:routes` metadata, if defined. -/
def Cls.routesMeta : Cls → Option (List RouteMetadata)
  | .mk _ _ _ _ r => r

/-! ### Decorators (`src/decorators/RouteDecorator.ts`, `src/decorators/DiDecorators.ts`) -/

/-- `createRouteDecorator(method)(path, middlewares)` applied to a method with
property key `key` of class `c`: reads `codex:routes` (defaulting to `[]`),
pushes one descriptor, and redefines the metadata.  The source defaults are
`path = '/'` and `middlewares = []`. -/
def createRouteDecorator (method : HttpMethod) (path : String)
    (middlewares : List Middleware) (key : String) : Cls → Cls
  | .mk n cm mm md rs =>
      .mk n cm mm md (some ((rs.getD []) ++ [⟨method, path, key, middlewares⟩]))

/-- The `@Controller(basePath, middlewares)` decorator from
`src/decorators/DiDecorators.ts`: defines `codex:controller := basePath` and
`codex:middlewares := middlewares` on the class (source defaults: `''`, `[]`).
The accompanying typedi `Service()` registration is not observable through the
metadata and is omitted. -/
def Controller (basePath : String) (middlewares : List Middleware) : Cls → Cls
  | .mk n _ _ md rs => .mk n (some basePath) (some middlewares) md rs

/-- The `@Module(metadata)` decorator: defines `codex:module := metadata`. -/
def Module (metadata : Option (List Cls) × Option (List Cls)) : Cls → Cls
  | .mk n cm mm _ rs => .mk n cm mm (some metadata) rs

/-- Base path as read back by registration:
`Reflect.getMetadata('codex:controller', C) || ''`.  (`||` only fires on a
missing key or the empty string, and both yield `''`.) -/
def readBasePath (c : Cls) : String := c.controllerMeta.getD ""

/-- Middlewares as read back by registration:
`Reflect.getMetadata('codex:middlewares', C) || []`. -/
def readMiddlewares (c : Cls) : List Middleware := c.middlewaresMeta.getD []

/-- Routes as read back by registration:
`Reflect.getMetadata('codex:routes', C) || []`. -/
def readRoutes (c : Cls) : List RouteMetadata := c.routesMeta.getD []

/-! ### Assertions (`src/assertion/assert.ts`) -/

/-- The class name used in assertion messages:
`(target as any).name || '(anonymous class)'` (the empty string is falsy). -/
def jsClassName (c : Cls) : String :=
  if c.name = "" then "(anonymous class)" else c.name

/-- `assertController`: throws unless `codex:controller` metadata is present. -/
def assertController (c : Cls) : Except String Unit :=
  if c.controllerMeta.isSome then .ok ()
  else .error
    (jsClassName c ++ " is missing @Controller decorator. Did you forget to add @Controller() to the class?")

/-- `assertModule`: throws unless `codex:module` metadata is present.  The
source template literal begins with a space. -/
def assertModule (c : Cls) : Except String Unit :=
  if c.moduleMeta.isSome then .ok ()
  else .error (" " ++ jsClassName c ++ " is missing @Module() metadata.")

/-! ### The wrapped route handler (`Codex.createHandler`, `src/index.ts`) -/

/-- Outcome of `await instance[handlerKey](req, res, next)`: either it
resolves (possibly to `undefined`, modelled `none`) or it throws
synchronously / rejects — both reach the surrounding `catch`. -/
inductive HandlerResult (ε α : Type) where
  | ok : Option α → HandlerResult ε α
  | err : ε → HandlerResult ε α
deriving DecidableEq, Repr

/-- What the wrapper produced by `createHandler` itself does with the
response: the argument of its own `res.json` call, if any, and the argument
of its `next` call, if any. -/
structure WrapperEffect (ε α : Type) where
  jsonSent : Option α
  nextCalled : Option ε
deriving DecidableEq, Repr

/-- `Codex.createHandler` (src/index.ts): awaits the method; on success calls
`res.json(result)` when `result !== undefined && !res.headersSent`; on a
throw/rejection calls `next(error)`. -/
def createHandler {ε α : Type} (headersSent : Bool) :
    HandlerResult ε α → WrapperEffect ε α
  | .ok result =>
      if result.isSome ∧ headersSent = false then ⟨result, none⟩
      else ⟨none, none⟩
  | .err e => ⟨none, some e⟩

/-! ### Body-parsing configuration (`enableJson`, `enableUrlEncoded`) -/

/-- The `config` object of the `Codex` class (the fields the claims need). -/
structure Config where
  jsonEnabled : Bool
  urlEncodedEnabled : Bool
  globalBaseRoute : String
  globalMiddlewares : List Middleware
deriving DecidableEq, Repr

/-- Observable state of a `Codex` instance for the body-parser claims: its
config and the sequence of app-level `app.use` middleware installations. -/
structure CodexState where
  config : Config
  stack : List Middleware
deriving DecidableEq, Repr

/-- `Codex.enableJson`: installs `express.json()` and sets the flag, only
when the flag is not yet set. -/
def enableJson (s : CodexState) : CodexState :=
  if s.config.jsonEnabled then s
  else { config := { s.config with jsonEnabled := true },
         stack := s.stack ++ [Middleware.jsonBody] }

/-- `Codex.enableUrlEncoded(options)`: installs `express.urlencoded(options)`
and sets the flag, only when the flag is not yet set.  `opts` is the
`extended` option (source default `true`). -/
def enableUrlEncoded (opts : Bool) (s : CodexState) : CodexState :=
  if s.config.urlEncodedEnabled then s
  else { config := { s.config with urlEncodedEnabled := true },
         stack := s.stack ++ [Middleware.urlencodedBody opts] }

/-! ### Module and controller registration (`registerModules`, `registerControllers`) -/

/-- One route mounted on a controller router: `router[method](path,
...middlewares, wrappedHandler)`.  `instanceCls` records which class the
handler instance was pulled from the container for (classes are keyed by
name), `handler` the method property key. -/
structure CompiledRoute where
  method : HttpMethod
  path : String
  instanceCls : String
  handler : String
  middlewares : List Middleware
deriving DecidableEq, Repr

/-- An Express `Router`: the middlewares installed with `router.use` and the
routes registered on it, in order. -/
structure RouterState where
  uses : List Middleware
  routes : List CompiledRoute
deriving DecidableEq, Repr

/-- One `app.use(path, router)` mount. -/
structure Mount where
  path : String
  router : RouterState
deriving DecidableEq, Repr

/-- Observable state mutated by the registration pass: the router mounts on
the Express app, the typedi container's keys (class names), and a log of the
class names passed to `Container.get`. -/
structure AppState where
  mounts : List Mount
  containerKeys : List String
  getLog : List String
deriving DecidableEq, Repr

/-- `Container.get(c)`: creates the singleton when absent and returns it;
every call is logged. -/
def containerGet (st : AppState) (c : Cls) : AppState :=
  { mounts := st.mounts,
    containerKeys :=
      if st.containerKeys.contains c.name then st.containerKeys
      else st.containerKeys ++ [c.name],
    getLog := st.getLog ++ [c.name] }

/-- `Container.set(c, new c())`: adds the key (only ever called when the key
is absent). -/
def containerSetNew (st : AppState) (c : Cls) : AppState :=
  { st with containerKeys := st.containerKeys ++ [c.name] }

/-- Provider loop of the direct (function-item) branch of `registerModules`:
`if (!Container.has(p)) Container.set(p, new p())`. -/
def registerProvidersDirect (st : AppState) (ps : List Cls) : AppState :=
  ps.foldl (fun s p => if s.containerKeys.contains p.name then s else containerSetNew s p) st

/-- Provider loop of the group branch of `registerModules`:
`if (!Container.has(p)) Container.get(p)`. -/
def registerProvidersGroup (st : AppState) (ps : List Cls) : AppState :=
  ps.foldl (fun s p => if s.containerKeys.contains p.name then s else containerGet s p) st

/-- The fresh router built for one controller: `ExpressRouter()`, then
`router.use(...preMws)` when nonempty (the global middlewares in
`registerControllers`, the group middlewares in the group branch), then
`router.use(...controllerMiddlewares)` when nonempty, then one route per
`codex:routes` descriptor with the instance pulled for the controller. -/
def controllerRouter (preMws : List Middleware) (c : Cls) : RouterState :=
  let r0 : RouterState := ⟨[], []⟩
  let r1 := if preMws.length > 0 then { r0 with uses := r0.uses ++ preMws } else r0
  let cm := readMiddlewares c
  let r2 := if cm.length > 0 then { r1 with uses := r1.uses ++ cm } else r1
  { r2 with routes :=
      (readRoutes c).map (fun r => ⟨r.method, r.path, c.name, r.handler, r.middlewares⟩) }

/-- Registration of a single controller class, shared shape of
`Codex.registerControllers` and of the inner controller loop of the group
branch: assert, read the base path, build the router, pull the instance from
the container, and mount at `globalBaseRoute + pfx + basePath` (`pfx` is the
group's route prefix, `""` in `registerControllers`). -/
def registerOneController (cfg : Config) (pfx : String) (preMws : List Middleware)
    (st : AppState) (c : Cls) : Except String AppState :=
  match assertController c with
  | .error e => .error e
  | .ok _ =>
      let basePath := readBasePath c
      let st1 := containerGet st c
      .ok { st1 with mounts :=
              st1.mounts ++ [⟨cfg.globalBaseRoute ++ pfx ++ basePath, controllerRouter preMws c⟩] }

/-- Left fold with exception propagation: the JavaScript `forEach` loops in
which a thrown assertion aborts the whole registration pass. -/
def foldE {α : Type} (f : AppState → α → Except String AppState) :
    AppState → List α → Except String AppState
  | st, [] => .ok st
  | st, x :: xs =>
      match f st x with
      | .error e => .error e
      | .ok st' => foldE f st' xs

/-- An item of the list passed to `registerModules`: a module class
(`typeof item === 'function'`), a group object with an array-valued
`modules` field (plus optional `route` and `middlewares`), or anything else. -/
inductive ModuleRegistration where
  | cls : Cls → ModuleRegistration
  | group : Option String → List Middleware → List Cls → ModuleRegistration
  | other : ModuleRegistration

/-- One module of the group branch: `assertModule`, destructure the metadata
with defaults, run the provider loop, then register each controller on a
fresh router mounted under the group's route prefix with the group's
middlewares. -/
def processGroupModule (cfg : Config) (pfx : String) (gmws : List Middleware)
    (st : AppState) (m : Cls) : Except String AppState :=
  match assertModule m with
  | .error e => .error e
  | .ok _ =>
      let md := m.moduleMeta.getD (none, none)
      let cs := md.1.getD []
      let ps := md.2.getD []
      let st1 := registerProvidersGroup st ps
      if cs.length > 0 then foldE (registerOneController cfg pfx gmws) st1 cs
      else .ok st1

/-- One item of `registerModules`: the direct branch asserts the module,
destructures its metadata, runs the provider loop, and calls
`registerControllers` (global middlewares, no route prefix); the group branch
computes `route || ''` and `middlewares || []` and processes each member
module; any other item falls through both `if`s and does nothing. -/
def processItem (cfg : Config) (st : AppState) : ModuleRegistration → Except String AppState
  | .cls m =>
      match assertModule m with
      | .error e => .error e
      | .ok _ =>
          let md := m.moduleMeta.getD (none, none)
          let cs := md.1.getD []
          let ps := md.2.getD []
          let st1 := registerProvidersDirect st ps
          if cs.length > 0 then
            foldE (registerOneController cfg "" cfg.globalMiddlewares) st1 cs
          else .ok st1
  | .group rte gmws mods => foldE (processGroupModule cfg (rte.getD "") gmws) st mods
  | .other => .ok st

/-- `Codex.registerModules(registrations)`. -/
def registerModules (cfg : Config) (st : AppState) (regs : List ModuleRegistration) :
    Except String AppState :=
  foldE (fun s r => processItem cfg s r) st regs

/-- The mount produced for one controller: path
`globalBaseRoute + pfx + basePath` and a freshly built router. -/
def expectedMount (cfg : Config) (pfx : String) (preMws : List Middleware) (c : Cls) : Mount :=
  ⟨cfg.globalBaseRoute ++ pfx ++ readBasePath c, controllerRouter preMws c⟩

/-- Whether a registration run succeeded (no assertion threw). -/
def regOk : Except String AppState → Bool
  | .ok _ => true
  | .error _ => false

/-- The mounts of a successful registration run. -/
def regMounts : Except String AppState → List Mount
  | .ok s => s.mounts
  | .error _ => []

/-- The `Container.get` log of a successful registration run. -/
def regGetLog : Except String AppState → List String
  | .ok s => s.getLog
  | .error _ => []

/-! ### Base route normalization (`Codex.baseRoute`, `Codex.createHttpMethod`) -/

/-- The JavaScript `s.replace(/\/+$/, '')`: remove every trailing `'/'`. -/
def stripTrailingSlashes (s : String) : String :=
  ⟨(s.data.reverse.dropWhile (fun ch => ch == '/')).reverse⟩

/-- `path.startsWith('/')`. -/
def jsStartsWithSlash (s : String) : Bool := s.data.head? == some '/'

/-- `Codex.baseRoute(path)`: empty or `'/'` clears the base route; otherwise
a leading `'/'` is ensured and trailing `'/'` characters are stripped. -/
def baseRoute (cfg : Config) (p : String) : Config :=
  if p = "" ∨ p = "/" then { cfg with globalBaseRoute := "" }
  else
    let r := if jsStartsWithSlash p then p else "/" ++ p
    { cfg with globalBaseRoute := stripTrailingSlashes r }

/-- The path used by the methods installed by `Codex.createHttpMethod`:
`this.config.globalBaseRoute + path`. -/
def createHttpMethodPath (cfg : Config) (p : String) : String :=
  cfg.globalBaseRoute ++ p

/-! ### The forwarding proxy (`src/core/Proxy.ts`) -/

/-- Result of calling a function found on the Express app: either the call
returned the app itself (`result === target.app`) or some other value. -/
inductive AppFnResult (α : Type) where
  | theApp : AppFnResult α
  | value : α → AppFnResult α

/-- A property of the Express app: a function or a plain value (`undefined`
included in `α`). -/
inductive AppProp (α : Type) where
  | func : (List α → AppFnResult α) → AppProp α
  | val : α → AppProp α

/-- Result of calling the function returned by the proxy: the Codex proxy
(`receiver`) or a plain value. -/
inductive CallResult (α : Type) where
  | receiver : CallResult α
  | plain : α → CallResult α

/-- What a property access through the proxy yields: a value read off the
Codex target itself, a bound function wrapping an Express function, or a
plain Express value. -/
inductive AccessResult (α : Type) where
  | fromCodex : α → AccessResult α
  | wrappedFn : (List α → CallResult α) → AccessResult α
  | appValue : α → AccessResult α

/-- The Codex instance as seen by the proxy trap: `hasProp` is `prop in
target` (own or inherited), `getProp` is `Reflect.get(target, prop,
receiver)`, and `appProp` reads `target.app[prop]`. -/
structure CodexTarget (α : Type) where
  hasProp : String → Bool
  getProp : String → α
  appProp : String → AppProp α

/-- The props `CodexProxy` always serves from the Codex object. -/
def blockedProps : List String := ["use", "enableJson", "enableUrlEncoded", "registerModules"]

/-- `CodexProxy.proxyHandler`: Codex's own properties win; blocked props are
read from Codex regardless; otherwise the Express app's property is
forwarded, functions being rebound to the app with the app's own return
value replaced by the proxy. -/
def proxyHandler {α : Type} (t : CodexTarget α) (prop : String) : AccessResult α :=
  if t.hasProp prop then .fromCodex (t.getProp prop)
  else if blockedProps.contains prop then .fromCodex (t.getProp prop)
  else
    match t.appProp prop with
    | .func f =>
        .wrappedFn (fun args =>
          match f args with
          | .theApp => .receiver
          | .value v => .plain v)
    | .val v => .appValue v

/-! ### Concrete objects used by the witness theorems -/

/-- A sample controller class: `@Controller('/users')` with one
`@Get('/')`-decorated method `list`. -/
def demoController : Cls :=
  Cls.mk "UserController" (some "/users") (some []) none
    (some [⟨HttpMethod.get, "/", "list", []⟩])

/-- A sample module class: `@Module({ controllers: [demoController] })`. -/
def demoModule : Cls :=
  Cls.mk "UserModule" none none (some (some [demoController], none)) none

/-- A sample configuration with global base route `/api`. -/
def demoConfig : Config := ⟨false, false, "/api", []⟩

/-- The initial registration state: nothing mounted, empty container. -/
def emptyAppState : AppState := ⟨[], [], []⟩

/-- A Codex target for the proxy whose own properties are exactly the
blocked ones and whose Express app yields the plain value `7` for every
property. -/
def demoTarget : CodexTarget Nat :=
  { hasProp := fun p => blockedProps.contains p,
    getProp := fun _ => 0,
    appProp := fun _ => AppProp.val 7 }

/-! ## Theorems -/

/-- C1 (counterexample): the wrapped handler does not pass the returned
value to `res.json` unconditionally — when the response's headers were
already sent, a handler that returned `42` produces no `res.json` call. -/
theorem createHandler_no_json_when_headers_sent :
    (createHandler true (HandlerResult.ok (some 42)) : WrapperEffect Unit Nat).jsonSent
      = none := rfl

/-- C1 (amended): after awaiting the underlying method, the wrapper passes
the returned result to `res.json` exactly when the result is not `undefined`
and the response's headers have not already been sent; otherwise it writes
nothing, and it never calls `next` on the success path. -/
theorem createHandler_success_json {ε α : Type} (headersSent : Bool) (result : Option α) :
    (createHandler headersSent (HandlerResult.ok result) : WrapperEffect ε α)
      = ⟨if headersSent = true then none else result, none⟩ := by
  cases headersSent <;> cases result <;> simp [createHandler]

/-- C2: when the underlying method throws synchronously or its promise
rejects, the wrapper calls `next` with exactly that error and performs no
`res.json` call of its own. -/
theorem createHandler_error_forwards {ε α : Type} (headersSent : Bool) (e : ε) :
    (createHandler headersSent (HandlerResult.err e) : WrapperEffect ε α)
      = ⟨none, some e⟩ := rfl

/-- C5: one application of an HTTP-verb decorator appends exactly one route
descriptor carrying the verb, path, decorated property key and middleware
list to the class's `codex:routes` list, leaving every previously recorded
descriptor (and all other metadata) unchanged, so the list preserves
application order. -/
theorem createRouteDecorator_appends (method : HttpMethod) (path : String)
    (mws : List Middleware) (key : String) (c : Cls) :
    (createRouteDecorator method path mws key c).routesMeta
        = some (readRoutes c ++ [⟨method, path, key, mws⟩]) ∧
      (createRouteDecorator method path mws key c).name = c.name ∧
      (createRouteDecorator method path mws key c).controllerMeta = c.controllerMeta ∧
      (createRouteDecorator method path mws key c).middlewaresMeta = c.middlewaresMeta ∧
      (createRouteDecorator method path mws key c).moduleMeta = c.moduleMeta := by
  cases c
  exact ⟨rfl, rfl, rfl, rfl, rfl⟩

/-- C6: metadata round-trip — the base path and middleware list attached by
`@Controller` are read back unchanged by the registration pass under
`codex:controller` and `codex:middlewares`, and the metadata object attached
by `@Module` is read back unchanged under `codex:module`. -/
theorem metadata_roundtrip (basePath : String) (mws : List Middleware)
    (md : Option (List Cls) × Option (List Cls)) (c c' : Cls) :
    (Controller basePath mws c).controllerMeta = some basePath ∧
      readBasePath (Controller basePath mws c) = basePath ∧
      (Controller basePath mws c).middlewaresMeta = some mws ∧
      readMiddlewares (Controller basePath mws c) = mws ∧
      (Module md c').moduleMeta = some md := by
  cases c
  cases c'
  exact ⟨rfl, rfl, rfl, rfl, rfl⟩

/-- C8: `enableJson` and `enableUrlEncoded` are idempotent — the first call
(flag still false) appends the corresponding body parser to the app's
middleware stack and sets only the matching flag; every further call leaves
both the stack and the config unchanged. -/
theorem enableBodyParsing_idempotent (s : CodexState) (o o' : Bool) :
    (s.config.jsonEnabled = false →
        enableJson s
          = ⟨{ s.config with jsonEnabled := true }, s.stack ++ [Middleware.jsonBody]⟩) ∧
      enableJson (enableJson s) = enableJson s ∧
      (s.config.urlEncodedEnabled = false →
        enableUrlEncoded o s
          = ⟨{ s.config with urlEncodedEnabled := true },
              s.stack ++ [Middleware.urlencodedBody o]⟩) ∧
      enableUrlEncoded o' (enableUrlEncoded o s) = enableUrlEncoded o s := by
  refine ⟨fun h => ?_, ?_, fun h => ?_, ?_⟩
  · simp [enableJson, h]
  · by_cases h : s.config.jsonEnabled <;> simp [enableJson, h]
  · simp [enableUrlEncoded, h]
  · by_cases h : s.config.urlEncodedEnabled <;> simp [enableUrlEncoded, h]

/-- Witness for C8 at a concrete fresh state. -/
theorem enableBodyParsing_idempotent_witness :
    enableJson ⟨⟨false, false, "", []⟩, []⟩
        = ⟨⟨true, false, "", []⟩, [Middleware.jsonBody]⟩ ∧
      enableJson (enableJson ⟨⟨false, false, "", []⟩, []⟩)
        = enableJson ⟨⟨false, false, "", []⟩, []⟩ :=
  ⟨(enableBodyParsing_idempotent ⟨⟨false, false, "", []⟩, []⟩ true true).1 rfl,
    (enableBodyParsing_idempotent ⟨⟨false, false, "", []⟩, []⟩ true true).2.1⟩

/-- C10: a registration item that is neither a function nor an object with
an array-valued `modules` property is skipped silently — it produces no
error and leaves the app mounts, the container and the configuration
untouched, and the remaining items are processed as if it were absent. -/
theorem registerModules_skips_unrecognized (cfg : Config) (st : AppState)
    (rest : List ModuleRegistration) :
    processItem cfg st ModuleRegistration.other = .ok st ∧
      registerModules cfg st (ModuleRegistration.other :: rest)
        = registerModules cfg st rest :=
  ⟨rfl, rfl⟩

/-- C3: wherever registration expects a module or a controller, an `Error`
is thrown if and only if the class lacks the corresponding `codex:module` /
`codex:controller` metadata, the message naming the class (or
`(anonymous class)`) and the missing decorator; the throw aborts
registration immediately, for a direct item, a group member, and a
controller listed in a module. -/
theorem assertion_guards_registration (c : Cls) :
    ((∃ e, assertController c = .error e) ↔ c.controllerMeta = none) ∧
      ((∃ e, assertModule c = .error e) ↔ c.moduleMeta = none) ∧
      (c.controllerMeta = none →
        assertController c = .error (jsClassName c ++
          " is missing @Controller decorator. Did you forget to add @Controller() to the class?")) ∧
      (c.moduleMeta = none →
        assertModule c = .error (" " ++ jsClassName c ++ " is missing @Module() metadata.")) ∧
      (∀ cfg st, c.moduleMeta = none →
        registerModules cfg st [ModuleRegistration.cls c]
          = .error (" " ++ jsClassName c ++ " is missing @Module() metadata.")) ∧
      (∀ cfg st rte gmws, c.moduleMeta = none →
        registerModules cfg st [ModuleRegistration.group rte gmws [c]]
          = .error (" " ++ jsClassName c ++ " is missing @Module() metadata.")) ∧
      (∀ cfg pfx mws st, c.controllerMeta = none →
        registerOneController cfg pfx mws st c = .error (jsClassName c ++
          " is missing @Controller decorator. Did you forget to add @Controller() to the class?")) ∧
      (∀ cfg st m ps, c.controllerMeta = none → m.moduleMeta = some (some [c], ps) →
        registerModules cfg st [ModuleRegistration.cls m] = .error (jsClassName c ++
          " is missing @Controller decorator. Did you forget to add @Controller() to the class?")) := by
  refine ⟨?_, ?_, fun h => ?_, fun h => ?_, fun cfg st h => ?_, fun cfg st rte gmws h => ?_,
    fun cfg pfx mws st h => ?_, fun cfg st m ps h hm => ?_⟩
  · constructor
    · intro ⟨e, he⟩
      by_contra hn
      have : c.controllerMeta.isSome := Option.ne_none_iff_isSome.mp hn
      simp [assertController, this] at he
    · intro h
      exact ⟨jsClassName c ++
        " is missing @Controller decorator. Did you forget to add @Controller() to the class?",
        by simp [assertController, h]⟩
  · constructor
    · intro ⟨e, he⟩
      by_contra hn
      have : c.moduleMeta.isSome := Option.ne_none_iff_isSome.mp hn
      simp [assertModule, this] at he
    · intro h
      exact ⟨" " ++ jsClassName c ++ " is missing @Module() metadata.",
        by simp [assertModule, h]⟩
  · simp [assertController, h]
  · simp [assertModule, h]
  · simp [registerModules, foldE, processItem, assertModule, h]
  · simp [registerModules, foldE, processItem, processGroupModule, assertModule, h]
  · simp [registerOneController, assertController, h]
  · simp [registerModules, foldE, processItem, assertModule, hm, registerProvidersDirect,
      registerOneController, assertController, h]

/-- Witness for C3: a concrete anonymous class without `@Module` metadata
and a concrete named class without `@Controller` metadata produce the
documented errors. -/
theorem assertion_guards_registration_witness :
    assertModule (Cls.mk "" none none none none)
        = .error " (anonymous class) is missing @Module() metadata." ∧
      assertController (Cls.mk "Foo" none none none none)
        = .error "Foo is missing @Controller decorator. Did you forget to add @Controller() to the class?" :=
  ⟨(assertion_guards_registration (Cls.mk "" none none none none)).2.2.2.1 rfl,
    (assertion_guards_registration (Cls.mk "Foo" none none none none)).2.2.1 rfl⟩

/-- C7: for a property absent from the Codex object, the proxy yields the
Express app's value for it; when that value is a function, the proxy hands
back a wrapper that applies it to the app, returning the proxy itself
whenever the call returned the app, and the plain result otherwise. -/
theorem proxyHandler_forwards {α : Type} (t : CodexTarget α) (prop : String)
    (hb : ∀ b ∈ blockedProps, t.hasProp b = true)
    (hp : t.hasProp prop = false) :
    (∀ v, t.appProp prop = AppProp.val v → proxyHandler t prop = AccessResult.appValue v) ∧
      (∀ f, t.appProp prop = AppProp.func f →
        proxyHandler t prop = AccessResult.wrappedFn (fun args =>
          match f args with
          | .theApp => .receiver
          | .value v => .plain v)) := by
  have hnb : prop ∉ blockedProps := fun hmem => by simp [hb prop hmem] at hp
  constructor
  · intro v hv
    simp [proxyHandler, hp, hnb, hv]
  · intro f hf
    simp [proxyHandler, hp, hnb, hf]

/-- Witness for C7: on a target whose own properties are the blocked ones,
accessing `query` returns the app's plain value. -/
theorem proxyHandler_forwards_witness :
    proxyHandler demoTarget "query" = AccessResult.appValue 7 :=
  (proxyHandler_forwards demoTarget "query" (by decide) (by decide)).1 7 rfl

/-- The provider loop of the direct branch only touches the container: the
mounts and the `Container.get` log are unchanged. -/
theorem registerProvidersDirect_preserves (ps : List Cls) : ∀ st : AppState,
    (registerProvidersDirect st ps).mounts = st.mounts ∧
      (registerProvidersDirect st ps).getLog = st.getLog := by
  induction ps with
  | nil => intro st; exact ⟨rfl, rfl⟩
  | cons p ps ih =>
      intro st
      by_cases hc : p.name ∈ st.containerKeys
      · simpa [registerProvidersDirect, List.foldl, hc] using ih st
      · simpa [registerProvidersDirect, List.foldl, hc, containerSetNew]
          using ih (containerSetNew st p)

/-- The provider loop of the group branch leaves the mounts unchanged. -/
theorem registerProvidersGroup_mounts (ps : List Cls) : ∀ st : AppState,
    (registerProvidersGroup st ps).mounts = st.mounts := by
  induction ps with
  | nil => intro st; rfl
  | cons p ps ih =>
      intro st
      by_cases hc : p.name ∈ st.containerKeys
      · simpa [registerProvidersGroup, List.foldl, hc] using ih st
      · simpa [registerProvidersGroup, List.foldl, hc, containerGet]
          using ih (containerGet st p)

/-- Folding one item is just applying the step. -/
theorem foldE_singleton {α : Type} (f : AppState → α → Except String AppState)
    (st : AppState) (x : α) : foldE f st [x] = f st x := by
  cases h : f st x <;> simp [foldE, h]

/-- The `controllers.length > 0` guard around the controller loop is
redundant: folding an empty list already returns the state unchanged. -/
theorem lengthGuard_foldE {α : Type} (f : AppState → α → Except String AppState)
    (st : AppState) (cs : List α) :
    (if cs.length > 0 then foldE f st cs else .ok st) = foldE f st cs := by
  cases cs <;> simp [foldE]

/-- Controller loop: when every class carries `codex:controller` metadata,
the loop succeeds, appends one fresh-router mount per controller in order,
and logs one `Container.get` per controller. -/
theorem foldE_registerOneController (cfg : Config) (pfx : String) (mws : List Middleware)
    (cs : List Cls) : ∀ st : AppState, (∀ c ∈ cs, c.controllerMeta.isSome = true) →
    ∃ keys, foldE (registerOneController cfg pfx mws) st cs
      = .ok ⟨st.mounts ++ cs.map (expectedMount cfg pfx mws), keys,
          st.getLog ++ cs.map Cls.name⟩ := by
  induction cs with
  | nil =>
      intro st _
      exact ⟨st.containerKeys, by simp [foldE]⟩
  | cons c cs ih =>
      intro st hc
      have hcm : c.controllerMeta.isSome = true := hc c (by simp)
      have hstep : registerOneController cfg pfx mws st c = .ok
          ⟨st.mounts ++ [expectedMount cfg pfx mws c],
            if c.name ∈ st.containerKeys then st.containerKeys
            else st.containerKeys ++ [c.name],
            st.getLog ++ [c.name]⟩ := by
        simp [registerOneController, assertController, hcm, containerGet, expectedMount]
      obtain ⟨keys, hk⟩ :=
        ih ⟨st.mounts ++ [expectedMount cfg pfx mws c],
            if c.name ∈ st.containerKeys then st.containerKeys
            else st.containerKeys ++ [c.name],
            st.getLog ++ [c.name]⟩
          (fun x hx => hc x (List.mem_cons_of_mem _ hx))
      exact ⟨keys, by simp [foldE, hstep, hk]⟩

/-- C4: registering a module wires each controller listed in its metadata
onto the Express app — the run succeeds, one `Container.get` is logged per
controller, and one mount per controller is appended whose path is the
global base route, then the group's route prefix (empty for a direct
module), then the controller's own base path, with a freshly built router. -/
theorem registerModules_wires_controllers (cfg : Config) (st : AppState) (m : Cls)
    (cs : List Cls) (ps : Option (List Cls))
    (hm : m.moduleMeta = some (some cs, ps))
    (hc : ∀ c ∈ cs, c.controllerMeta.isSome = true) :
    (regOk (registerModules cfg st [ModuleRegistration.cls m]) = true ∧
      regMounts (registerModules cfg st [ModuleRegistration.cls m])
        = st.mounts ++ cs.map (expectedMount cfg "" cfg.globalMiddlewares) ∧
      ∀ c ∈ cs, c.name ∈ regGetLog (registerModules cfg st [ModuleRegistration.cls m])) ∧
    ∀ rte gmws,
      regOk (registerModules cfg st [ModuleRegistration.group rte gmws [m]]) = true ∧
      regMounts (registerModules cfg st [ModuleRegistration.group rte gmws [m]])
        = st.mounts ++ cs.map (expectedMount cfg (rte.getD "") gmws) ∧
      ∀ c ∈ cs, c.name ∈ regGetLog (registerModules cfg st [ModuleRegistration.group rte gmws [m]]) := by
  have hms : m.moduleMeta.isSome = true := by simp [hm]
  constructor
  · have h1 : registerModules cfg st [ModuleRegistration.cls m]
        = foldE (registerOneController cfg "" cfg.globalMiddlewares)
            (registerProvidersDirect st (ps.getD [])) cs := by
      simp [registerModules, foldE_singleton, processItem, assertModule, hms, hm,
        lengthGuard_foldE]
    obtain ⟨keys, hk⟩ := foldE_registerOneController cfg "" cfg.globalMiddlewares cs
      (registerProvidersDirect st (ps.getD [])) hc
    obtain ⟨hpm, hpl⟩ := registerProvidersDirect_preserves (ps.getD []) st
    rw [h1, hk]
    refine ⟨rfl, ?_, ?_⟩
    · simp [regMounts, hpm]
    · intro c hcmem
      simp [regGetLog, hpl]
      exact Or.inr ⟨c, hcmem, rfl⟩
  · intro rte gmws
    have h2 : registerModules cfg st [ModuleRegistration.group rte gmws [m]]
        = foldE (registerOneController cfg (rte.getD "") gmws)
            (registerProvidersGroup st (ps.getD [])) cs := by
      simp [registerModules, foldE_singleton, processItem, processGroupModule,
        assertModule, hms, hm, lengthGuard_foldE]
    obtain ⟨keys, hk⟩ := foldE_registerOneController cfg (rte.getD "") gmws cs
      (registerProvidersGroup st (ps.getD [])) hc
    have hpm := registerProvidersGroup_mounts (ps.getD []) st
    rw [h2, hk]
    refine ⟨rfl, ?_, ?_⟩
    · simp [regMounts, hpm]
    · intro c hcmem
      simp [regGetLog]
      exact Or.inr ⟨c, hcmem, rfl⟩

/-- Witness for C4: a concrete module with one decorated controller mounts
it at `/api/users` and pulls its instance from the container. -/
theorem registerModules_wires_controllers_witness :
    regOk (registerModules demoConfig emptyAppState [ModuleRegistration.cls demoModule]) = true ∧
      regMounts (registerModules demoConfig emptyAppState [ModuleRegistration.cls demoModule])
        = [expectedMount demoConfig "" [] demoController] ∧
      "UserController" ∈
        regGetLog (registerModules demoConfig emptyAppState [ModuleRegistration.cls demoModule]) := by
  have h := (registerModules_wires_controllers demoConfig emptyAppState demoModule
    [demoController] none rfl (by decide)).1
  exact ⟨h.1, by simpa [emptyAppState] using h.2.1,
    by simpa [demoController] using h.2.2 demoController (by simp)⟩

/-- The first character surviving `dropWhile (· == '/')` is not `'/'`. -/
theorem head_dropWhile_slash (l : List Char) : ∀ (a : Char) (t : List Char),
    l.dropWhile (fun ch => ch == '/') = a :: t → a ≠ '/' := by
  induction l with
  | nil =>
      intro a t h
      simp [List.dropWhile] at h
  | cons x xs ih =>
      intro a t h
      by_cases hx : x = '/'
      · have hb : (x == '/') = true := by simp [hx]
        simp [List.dropWhile, hb] at h
        exact ih a t h
      · have hb : (x == '/') = false := by simp [hx]
        simp [List.dropWhile, hb] at h
        obtain ⟨rfl, rfl⟩ := h
        exact hx

/-- `stripTrailingSlashes` of a string beginning with `'/'` is either empty
or still begins with `'/'` and no longer ends with `'/'`. -/
theorem stripTrailingSlashes_spec (s : String) (hs : s.data.head? = some '/') :
    stripTrailingSlashes s = "" ∨
      ((stripTrailingSlashes s).data.head? = some '/' ∧
        (stripTrailingSlashes s).data.getLast? ≠ some '/') := by
  cases hcase : s.data.reverse.dropWhile (fun ch => ch == '/') with
  | nil =>
      left
      show (⟨(s.data.reverse.dropWhile (fun ch => ch == '/')).reverse⟩ : String) = ""
      rw [hcase]
      rfl
  | cons a t =>
      right
      have ha : a ≠ '/' := head_dropWhile_slash s.data.reverse a t hcase
      have hsuf : (a :: t) <:+ s.data.reverse := by
        rw [← hcase]
        exact List.dropWhile_suffix _
      have hpre : (a :: t).reverse <+: s.data := by
        have h1 : (a :: t).reverse <+: s.data.reverse.reverse := List.reverse_prefix.mpr hsuf
        simpa using h1
      have hdata : (stripTrailingSlashes s).data = (a :: t).reverse := by
        show (s.data.reverse.dropWhile (fun ch => ch == '/')).reverse = (a :: t).reverse
        rw [hcase]
      constructor
      · obtain ⟨u, hu⟩ := hpre
        rw [hdata]
        cases hdr : (a :: t).reverse with
        | nil => simp at hdr
        | cons b bs =>
            rw [hdr] at hu
            rw [← hu] at hs
            simpa using hs
      · rw [hdata, List.getLast?_reverse]
        simp [ha]

/-- C9: `baseRoute` stores a normalized global base route — empty for an
empty or `'/'` argument, otherwise starting with `'/'` and stripped of
trailing `'/'` characters (possibly empty when the argument was all
slashes) — and both the verb methods and controller registration mount
every subsequent route at a path carrying this value as its prefix. -/
theorem baseRoute_normalizes (cfg : Config) (p : String) :
    ((p = "" ∨ p = "/") → (baseRoute cfg p).globalBaseRoute = "") ∧
      ((baseRoute cfg p).globalBaseRoute = "" ∨
        ((baseRoute cfg p).globalBaseRoute.data.head? = some '/' ∧
          (baseRoute cfg p).globalBaseRoute.data.getLast? ≠ some '/')) ∧
      (∀ q, createHttpMethodPath (baseRoute cfg p) q
        = (baseRoute cfg p).globalBaseRoute ++ q) ∧
      ∀ pfx mws c, (expectedMount (baseRoute cfg p) pfx mws c).path
        = (baseRoute cfg p).globalBaseRoute ++ (pfx ++ readBasePath c) := by
  refine ⟨fun h => ?_, ?_, fun q => rfl, fun pfx mws c => ?_⟩
  · simp only [baseRoute, if_pos h]
  · by_cases h : p = "" ∨ p = "/"
    · left
      simp only [baseRoute, if_pos h]
    · have hbr : (baseRoute cfg p).globalBaseRoute
          = stripTrailingSlashes (if jsStartsWithSlash p then p else "/" ++ p) := by
        simp only [baseRoute, if_neg h]
      have hr : (if jsStartsWithSlash p then p else "/" ++ p).data.head? = some '/' := by
        by_cases hsw : jsStartsWithSlash p
        · rw [if_pos hsw]
          simpa [jsStartsWithSlash] using hsw
        · rw [if_neg hsw]
          simp [String.data_append]
      rw [hbr]
      exact stripTrailingSlashes_spec _ hr
  · simp [expectedMount, String.append_assoc]

/-- Witness for C9: `'/'` clears the base route, and a verb-method path is
the stored base route followed by the given path. -/
theorem baseRoute_normalizes_witness :
    (baseRoute demoConfig "/").globalBaseRoute = "" ∧
      createHttpMethodPath (baseRoute demoConfig "api/") "/users"
        = (baseRoute demoConfig "api/").globalBaseRoute ++ "/users" :=
  ⟨(baseRoute_normalizes demoConfig "/").1 (Or.inr rfl),
    (baseRoute_normalizes demoConfig "api/").2.2.1 "/users"⟩

end CodexJS
